import Mathlib

/-!
Verification development for the StatsClangd diagnostic tooling
(scripts/merge_diagnostics.py and scripts/report_diagnostics.py).

The scripts work on values decoded by Python's json module.  We embed those
values shallowly: `JVal` covers null, booleans, integers, strings, arrays and
objects.  JSON numbers are modelled as integers (the diagnostics data carries
integer positions; floating point is outside the embedding).  A decoded JSON
object is a Python dict: an insertion-ordered association list with distinct
keys; `null` decodes to Python `None`.
-/

inductive JVal where
  | null : JVal
  | bool : Bool → JVal
  | int : Int → JVal
  | str : String → JVal
  | arr : List JVal → JVal
  | obj : List (String × JVal) → JVal

/-- A diagnostic record: a decoded JSON object (Python dict). -/
abbrev Obj := List (String × JVal)

/-- The apostrophe character, used by `sanitize_csv_cell` and Python repr. -/
def aposChar : Char := Char.ofNat 39

/-- The apostrophe as a one-character string. -/
def apos : String := String.singleton aposChar

/-- Python truthiness for decoded JSON values: `None`, `False`, `0`, the empty
string, the empty list and the empty dict are falsy, everything else truthy. -/
def JVal.truthy : JVal → Bool
  | .null => false
  | .bool b => b
  | .int n => !(n == 0)
  | .str s => !(s == "")
  | .arr xs => !xs.isEmpty
  | .obj kvs => !kvs.isEmpty

/-- Whether a value is Python `None` (JSON null / absent key). -/
def JVal.isNone : JVal → Bool
  | .null => true
  | _ => false

/-- Escape a character for Python string repr (backslash and quote).
Approximates CPython repr, which additionally switches quote characters and
escapes non-printables; the scripts only ever need that repr of a truthy
value is non-empty. -/
def pyEscapeChar (c : Char) : String :=
  if c = '\\' then String.singleton '\\' ++ String.singleton '\\'
  else if c = aposChar then String.singleton '\\' ++ apos
  else String.singleton c

/-- Python repr of a string: quoted, with backslash/quote escaped. -/
def pyReprString (s : String) : String :=
  apos ++ String.join (s.data.map pyEscapeChar) ++ apos

mutual
/-- Python `repr` of a decoded JSON value (modulo the string-escape
approximation noted at `pyEscapeChar`). -/
def JVal.pyrepr : JVal → String
  | .null => "None"
  | .bool true => "True"
  | .bool false => "False"
  | .int n => toString n
  | .str s => pyReprString s
  | .arr xs => "[" ++ pyReprArr xs ++ "]"
  | .obj kvs => "\x7b" ++ pyReprObj kvs ++ "\x7d"

/-- Comma-separated reprs of list elements. -/
def pyReprArr : List JVal → String
  | [] => ""
  | [v] => JVal.pyrepr v
  | v :: w :: vs => JVal.pyrepr v ++ ", " ++ pyReprArr (w :: vs)

/-- Comma-separated `key: value` reprs of dict items. -/
def pyReprObj : List (String × JVal) → String
  | [] => ""
  | [(k, v)] => pyReprString k ++ ": " ++ JVal.pyrepr v
  | (k, v) :: p :: kvs =>
      pyReprString k ++ ": " ++ JVal.pyrepr v ++ ", " ++ pyReprObj (p :: kvs)
end

/-- Python `str()` of a decoded JSON value: the string itself for strings,
`repr` otherwise (`None`/`True`/`False`, decimal integers, container reprs). -/
def pystr : JVal → String
  | .str s => s
  | v => v.pyrepr

/-- Python `d.get(k)`: the stored value when the key is present, else `None`.
A stored JSON null is also Python `None`, so both cases yield `JVal.null`. -/
def pyGet (d : Obj) (k : String) : JVal :=
  match d.lookup k with
  | some v => v
  | none => JVal.null

/-- Python `d.get(k, default)`: the stored value when the key is present
(even when it is null), else the default. -/
def pyGetD (d : Obj) (k : String) (dflt : JVal) : JVal :=
  match d.lookup k with
  | some v => v
  | none => dflt

/-- Python `a or b`: `a` when truthy, else `b`. -/
def pyOr (a b : JVal) : JVal :=
  if a.truthy then a else b

/-! ## merge_diagnostics.py -/

/-- Convert a value to a diagnostic dict when it is one (`isinstance(x, dict)`). -/
def jObj? : JVal → Option Obj
  | .obj kvs => some kvs
  | _ => none

/-- The wrapper keys recognised by `extract_items`, in priority order. -/
def wrapperKeys : List String := ["problems", "diagnostics", "items", "data"]

/-- The loop body of `extract_items` over a dict document: the first wrapper
key whose value is a list wins; non-dict elements are dropped. -/
def extractWrapped (kvs : Obj) : List String → List Obj
  | [] => []
  | k :: ks =>
      match pyGet kvs k with
      | .arr xs => xs.filterMap jObj?
      | _ => extractWrapped kvs ks

/-- merge_diagnostics.extract_items: a list of diagnostic dicts from either a
bare list or a dict wrapper; any other shape yields the empty list. -/
def extract_items (data : JVal) : List Obj :=
  match data with
  | .arr xs => xs.filterMap jObj?
  | .obj kvs => extractWrapped kvs wrapperKeys
  | _ => []

namespace Merge

/-- merge_diagnostics.get_code. -/
def get_code (d : Obj) : String :=
  match pyGet d "code" with
  | .obj kvs => pystr (pyOr (pyGet kvs "value") (.str ""))
  | .str s => s
  | _ => ""

/-- merge_diagnostics.get_file: `or`-chained lookup with a nested-mapping
fallback, stringified when truthy, empty string otherwise. -/
def get_file (d : Obj) : String :=
  let fp := pyOr (pyGet d "resource")
      (pyOr (pyGet d "file") (pyOr (pyGet d "uri") (pyGet d "path")))
  let fp :=
    match fp with
    | .obj kvs => pyOr (pyGet kvs "path") (pyOr (pyGet kvs "fsPath") (pyGet kvs "uri"))
    | v => v
  if fp.truthy then pystr fp else ""

/-- merge_diagnostics.get_pos: `(line, column)` as strings.  Tries
`startLineNumber`/`startColumn` (both non-None), falls back to
`range.start.line`/`range.start.character`; when the `range` (or its
`start`) is not a dict the variables keep their previous values. -/
def get_pos (d : Obj) : String × String :=
  let line0 := pyGet d "startLineNumber"
  let col0 := pyGet d "startColumn"
  if !line0.isNone && !col0.isNone then (pystr line0, pystr col0)
  else
    let r := pyGetD d "range" (.obj [])
    let lc :=
      match r with
      | .obj rk =>
          match pyGetD rk "start" (.obj []) with
          | .obj sk => (pyGet sk "line", pyGet sk "character")
          | _ => (line0, col0)
      | _ => (line0, col0)
    (if lc.1.isNone then "" else pystr lc.1,
     if lc.2.isNone then "" else pystr lc.2)

/-- The canonical deduplication key of merge_diagnostics.diag_key:
`(file, code, line, column, message)`, all strings. -/
def diag_key (d : Obj) : String × String × String × String × String :=
  (get_file d, get_code d, (get_pos d).1, (get_pos d).2,
   pystr (pyOr (pyGet d "message") (.str "")))

/-- The type of canonical keys. -/
abbrev DKey := String × String × String × String × String

/-- The deduplication loop of merge_diagnostics.main: one linear pass with a
seen-key set (modelled as a list; only membership is used). -/
def dedup_pass (seen : List DKey) : List Obj → List Obj
  | [] => []
  | d :: ds =>
      if diag_key d ∈ seen then dedup_pass seen ds
      else d :: dedup_pass (diag_key d :: seen) ds

/-- Deduplication as performed by merge_diagnostics.main (empty seen set). -/
def dedup (ds : List Obj) : List Obj := dedup_pass [] ds

/-- The result of a merge run: exit code, read_ok / read_fail counters and the
output list. -/
structure MergeResult where
  exitCode : Nat
  read_ok : Nat
  read_fail : Nat
  output : List Obj

/-- One step of the reading loop of merge_diagnostics.main: a successful read
extends `merged` with the document's items, a failed read only bumps
`read_fail`. -/
def read_step (acc : Nat × Nat × List Obj) (r : Except String JVal) :
    Nat × Nat × List Obj :=
  match r with
  | .ok data => (acc.1 + 1, acc.2.1, acc.2.2 ++ extract_items data)
  | .error _ => (acc.1, acc.2.1 + 1, acc.2.2)

/-- The reading loop of merge_diagnostics.main over the (already
existence-filtered) input files, each given by its read/parse outcome:
`(read_ok, read_fail, merged)`. -/
def process_reads (reads : List (Except String JVal)) : Nat × Nat × List Obj :=
  reads.foldl read_step (0, 0, [])

/-- merge_diagnostics.main after argument parsing: `reads` are the outcomes of
reading each existing input file.  An empty file list exits 2; otherwise each
failed read is skipped and counted, and the merged items are deduplicated
unless `no_dedup`. -/
def merge_main (reads : List (Except String JVal)) (no_dedup : Bool) : MergeResult :=
  if reads.isEmpty then ⟨2, 0, 0, []⟩
  else
    let a := process_reads reads
    ⟨0, a.1, a.2.1, if no_dedup then a.2.2 else dedup a.2.2⟩

end Merge

/-! ## report_diagnostics.py -/

namespace Report

/-- Whether a string starts with one of the formula characters `=`, `+`, `-`,
`@` (Python `text.startswith(("=", "+", "-", "@"))`). -/
def startsFormula (s : String) : Bool :=
  match s.data with
  | [] => false
  | c :: _ => c = '=' || c = '+' || c = '-' || c = '@'

/-- The cell text of a value: `str(value) if value is not None else ""`. -/
def cellText (v : JVal) : String :=
  if v.isNone then "" else pystr v

/-- report_diagnostics.sanitize_csv_cell: prefix formula-looking text with an
apostrophe, leave other text unchanged. -/
def sanitize_csv_cell (v : JVal) : String :=
  let text := cellText v
  if startsFormula text then apos ++ text else text

/-- report_diagnostics.get_code: the `value` sub-field of a dict code (raw,
possibly `None`), a string code directly, `None` otherwise. -/
def get_code (d : Obj) : JVal :=
  match pyGet d "code" with
  | .obj kvs => pyGet kvs "value"
  | .str s => .str s
  | _ => .null

/-- report_diagnostics.get_file: same selection as the merge script,
but returning `None` instead of the empty string when nothing is truthy. -/
def get_file (d : Obj) : JVal :=
  let fp := pyOr (pyGet d "resource")
      (pyOr (pyGet d "file") (pyOr (pyGet d "uri") (pyGet d "path")))
  let fp :=
    match fp with
    | .obj kvs => pyOr (pyGet kvs "path") (pyOr (pyGet kvs "fsPath") (pyGet kvs "uri"))
    | v => v
  if fp.truthy then .str (pystr fp) else .null

/-- Digit-group check of CPython `int()` on strings: non-empty, every
character a digit, except that a single underscore may stand between two
digits (`1_2` is accepted; `_1`, `1_` and `1__2` are not). -/
def digitsOk : List Char → Bool
  | [] => false
  | [c] => c.isDigit
  | c :: d :: rest =>
      if d = '_' then c.isDigit && digitsOk rest
      else c.isDigit && digitsOk (d :: rest)

/-- Parse a digit group accepted by `digitsOk` as a natural number,
ignoring grouping underscores.  CPython additionally accepts non-ASCII
decimal digits, which the embedding does not model. -/
def parseDigits (cs : List Char) : Option Nat :=
  if digitsOk cs then
    some ((cs.filter fun c => c != '_').foldl
      (fun a c => a * 10 + (c.toNat - Char.toNat '0')) 0)
  else none

/-- Python `int(s)` for a string: strip surrounding whitespace, parse an
optional sign and digits; anything else raises ValueError (here: `none`). -/
def pyIntOfString (s : String) : Option Int :=
  match ((s.data.dropWhile Char.isWhitespace).reverse.dropWhile Char.isWhitespace).reverse with
  | [] => none
  | c :: cs =>
      if c = '-' then (parseDigits cs).map (fun n => -(n : Int))
      else if c = '+' then (parseDigits cs).map (fun n => (n : Int))
      else (parseDigits (c :: cs)).map (fun n => (n : Int))

/-- The local `to_int_or_none` of report_diagnostics.get_pos:
`int(value) if value is not None else None`, with TypeError/ValueError
mapped to `None`.  `int(True) = 1`, `int(False) = 0`. -/
def to_int_or_none (v : JVal) : Option Int :=
  match v with
  | .null => none
  | .bool b => some (if b then 1 else 0)
  | .int n => some n
  | .str s => pyIntOfString s
  | .arr _ => none
  | .obj _ => none

/-- report_diagnostics.get_pos: integer (or `None`) line/column.  Tries
`startLineNumber`/`startColumn` (both non-None); otherwise reads
`range.start.line`/`range.start.character`, replacing a non-dict `range`
or `start` by the empty dict. -/
def get_pos (d : Obj) : Option Int × Option Int :=
  let line0 := pyGet d "startLineNumber"
  let col0 := pyGet d "startColumn"
  if !line0.isNone && !col0.isNone then (to_int_or_none line0, to_int_or_none col0)
  else
    let r :=
      match pyGetD d "range" (.obj []) with
      | .obj rk => rk
      | _ => []
    let s :=
      match pyGetD r "start" (.obj []) with
      | .obj sk => sk
      | _ => []
    (to_int_or_none (pyGet s "line"), to_int_or_none (pyGet s "character"))

/-- report_diagnostics.is_valid_diagnostic_item: string `source` and string
`message`. -/
def is_valid_diagnostic_item (d : Obj) : Bool :=
  (match pyGet d "source" with | .str _ => true | _ => false) &&
  (match pyGet d "message" with | .str _ => true | _ => false)

/-- Substring containment, Python `needle in hay` for strings. -/
def strContains (hay needle : String) : Bool :=
  if needle = "" then true else (hay.splitOn needle).length != 1

/-- The reporter's command-line options that shape the output. -/
structure Args where
  source : String := "clangd"
  code : String := ""
  message_contains : String := ""
  version : String := ""
  day : String := ""
  max_items : Int := 0

/-- The `keep` filter of report_diagnostics.main: source exact match unless
the wildcard `*`, code exact match unless empty, message substring unless
empty (conjunction).  The Python `!=` between a decoded JSON value and a
string is false exactly on an equal string.  `keep` is only applied to
valid items, whose `message` is a string. -/
def keep (args : Args) (d : Obj) : Bool :=
  (if args.source = "*" then true
   else match pyGet d "source" with
        | .str t => t = args.source
        | _ => false) &&
  (if args.code = "" then true
   else match get_code d with
        | .str t => t = args.code
        | _ => false) &&
  (if args.message_contains = "" then true
   else match pyGetD d "message" (.str "") with
        | .str m => strContains m args.message_contains
        | _ => false)

/-- The valid items of the input (`is_valid_diagnostic_item` filter). -/
def valid_items (items : List Obj) : List Obj :=
  items.filter is_valid_diagnostic_item

/-- The skipped count reported on stderr: invalid items. -/
def skipped_count (items : List Obj) : Nat :=
  items.length - (valid_items items).length

/-- The filtered items (validity gate, then `keep`). -/
def filteredItems (args : Args) (items : List Obj) : List Obj :=
  (valid_items items).filter (keep args)

/-- The records that reach both output tables: the filtered items, truncated
to `max_items` when that cap is positive. -/
def capped (args : Args) (items : List Obj) : List Obj :=
  if args.max_items > 0 then (filteredItems args items).take args.max_items.toNat
  else filteredItems args items

/-- The file under which a record is counted in the per-file summary:
`fp = get_file(d)` when truthy (`if fp:`), nothing otherwise. -/
def fileKey (d : Obj) : Option String :=
  match get_file d with
  | .str s => if s = "" then none else some s
  | _ => none

/-- One `Counter` increment, preserving dict insertion order: bump an
existing key in place, append a new key with count 1. -/
def counterAdd (c : List (String × Nat)) (k : String) : List (String × Nat) :=
  if c.any (fun p => p.1 = k) then
    c.map (fun p => if p.1 = k then (p.1, p.2 + 1) else p)
  else c ++ [(k, 1)]

/-- The counter built from a stream of keys. -/
def counterOf (ks : List String) : List (String × Nat) :=
  ks.foldl counterAdd []

/-- The `per_file` Counter of report_diagnostics.main over the capped
records. -/
def perFileCounter (ds : List Obj) : List (String × Nat) :=
  ds.foldl (fun c d =>
    match fileKey d with
    | some k => counterAdd c k
    | none => c) []

/-- Stable descending insertion: place `x` before the first entry whose
count is at most `x`'s, after all strictly greater ones. -/
def insertDesc (x : String × Nat) : List (String × Nat) → List (String × Nat)
  | [] => [x]
  | y :: ys => if y.2 ≤ x.2 then x :: y :: ys else y :: insertDesc x ys

/-- Counter.most_common(): the counter items sorted by count, descending,
with Python's stable sort (equal counts keep insertion order). -/
def most_common (c : List (String × Nat)) : List (String × Nat) :=
  match c with
  | [] => []
  | x :: xs => insertDesc x (most_common xs)

/-- The header row of the per-file summary CSV. -/
def simpleHeader : List String := ["day", "version", "file", "count"]

/-- A data row of the per-file summary CSV as written by the code:
`[sanitize_csv_cell(fp), n]` (the csv writer stringifies the count). -/
def simpleRow (p : String × Nat) : List String :=
  [sanitize_csv_cell (.str p.1), toString p.2]

/-- The per-file summary table (header plus data rows). -/
def simple_table (args : Args) (items : List Obj) : List (List String) :=
  simpleHeader :: (most_common (perFileCounter (capped args items))).map simpleRow

/-- The header row of the detailed CSV. -/
def detailedHeader : List String :=
  ["day", "version", "file", "line", "column", "code", "source", "message"]

/-- One data row of the detailed CSV: sanitized day, version, file, code,
source and message cells; raw integer (or empty) line and column cells. -/
def detailed_row (args : Args) (d : Obj) : List String :=
  let fp := pyOr (get_file d) (.str "")
  let lc := get_pos d
  [ sanitize_csv_cell (.str args.day),
    sanitize_csv_cell (.str args.version),
    sanitize_csv_cell fp,
    (match lc.1 with | some n => toString n | none => ""),
    (match lc.2 with | some n => toString n | none => ""),
    sanitize_csv_cell (pyOr (get_code d) (.str "")),
    sanitize_csv_cell (pyGetD d "source" (.str "")),
    sanitize_csv_cell (pyGetD d "message" (.str "")) ]

/-- The detailed table (header plus one row per capped record). -/
def detailed_table (args : Args) (items : List Obj) : List (List String) :=
  detailedHeader :: (capped args items).map (detailed_row args)

end Report

/-! ## Specification-side definitions -/

/-- First occurrence filter: keep each element whose key has not occurred at
an earlier position, drop every later occurrence.  This is the claim-side
description of deduplication, written independently of the seen-set loop. -/
def firstOcc {α κ : Type} [DecidableEq κ] (key : α → κ) : List α → List α
  | [] => []
  | a :: as => a :: firstOcc key (as.filter fun b => !(decide (key b = key a)))
termination_by l => l.length
decreasing_by simp only [List.length_cons]; exact Nat.lt_succ_of_le (List.length_filter_le _ _)

namespace Merge

/-- The seen-key set after `dedup_pass seen ds` has processed `ds`. -/
def keysAfter (seen : List DKey) (ds : List Obj) : List DKey :=
  ds.foldl (fun s d => if diag_key d ∈ s then s else diag_key d :: s) seen

end Merge

namespace Spec

/-- The value of the first key of `ks` that is present in the dict, absent
keys skipped (presence, not truthiness). -/
def firstPresentKey (d : Obj) : List String → Option JVal
  | [] => none
  | k :: ks =>
      match d.lookup k with
      | some v => some v
      | none => firstPresentKey d ks

/-- The file derivation in the words of the claim: the value of the first key
present among resource, file, uri, path (descending into a mapping via its
first present key among path, fsPath, uri), coerced to a string, empty when
none is present.  Stated for comparison with `Merge.get_file`. -/
def get_file_first_present (d : Obj) : String :=
  match firstPresentKey d ["resource", "file", "uri", "path"] with
  | none => ""
  | some v =>
      match v with
      | .obj kvs =>
          match firstPresentKey kvs ["path", "fsPath", "uri"] with
          | some w => pystr w
          | none => ""
      | _ => pystr v

/-- The value of the first key of `ks` whose value in the dict is truthy,
`None` when there is none. -/
def firstTruthyVal (d : Obj) : List String → JVal
  | [] => .null
  | k :: ks =>
      let v := pyGet d k
      if v.truthy then v else firstTruthyVal d ks

/-- The amended file derivation: the first truthy value among resource, file,
uri, path (descending into a mapping via its first truthy value among path,
fsPath, uri), stringified, with the empty string when nothing truthy is
found. -/
def get_file_first_truthy (d : Obj) : String :=
  match firstTruthyVal d ["resource", "file", "uri", "path"] with
  | .obj kvs =>
      let w := firstTruthyVal kvs ["path", "fsPath", "uri"]
      if w.truthy then pystr w else ""
  | v => if v.truthy then pystr v else ""

end Spec

/-! ## Helper lemmas -/

theorem toDigitsCore_length_le (b : Nat) :
    ∀ (fuel n : Nat) (ds : List Char), ds.length ≤ (Nat.toDigitsCore b fuel n ds).length := by
  intro fuel
  induction fuel with
  | zero => intro n ds; simp [Nat.toDigitsCore]
  | succ f ih =>
    intro n ds
    simp only [Nat.toDigitsCore]
    split
    · simp
    · exact le_trans (by simp) (ih _ _)

theorem toDigits_ne_nil (n : Nat) : Nat.toDigits 10 n ≠ [] := by
  unfold Nat.toDigits
  simp only [Nat.toDigitsCore]
  split
  · simp
  · intro h
    have := toDigitsCore_length_le 10 n (n / 10) [Nat.digitChar (n % 10)]
    rw [h] at this
    simp at this

theorem natRepr_ne_empty (n : Nat) : Nat.repr n ≠ "" := by
  unfold Nat.repr
  intro h
  have h1 : (Nat.toDigits 10 n).asString.length = 0 := by rw [h]; rfl
  have h2 : (Nat.toDigits 10 n).length = 0 := h1
  exact toDigits_ne_nil n (List.length_eq_zero.mp h2)

theorem intToString_ne_empty (n : Int) : toString n ≠ "" := by
  cases n with
  | ofNat m => exact natRepr_ne_empty m
  | negSucc m =>
    show "-" ++ Nat.repr (m + 1) ≠ ""
    intro h
    have h0 : ("-" ++ Nat.repr (m + 1)).length = 0 := by rw [h]; rfl
    rw [String.length_append] at h0
    have h1 : ("-" : String).length = 1 := rfl
    omega

theorem append_ne_empty_left (a b : String) (h : a ≠ "") : a ++ b ≠ "" := by
  intro hc
  have h0 : (a ++ b).length = 0 := by rw [hc]; rfl
  rw [String.length_append] at h0
  have h1 : a.length ≠ 0 := by
    intro hz
    apply h
    have hz' : a.data.length = 0 := hz
    have hd : a.data = [] := List.length_eq_zero.mp hz'
    exact String.ext (by rw [hd])
  omega

theorem pystr_ne_empty_of_truthy (v : JVal) (h : v.truthy = true) : pystr v ≠ "" := by
  cases v with
  | null => simp [JVal.truthy] at h
  | bool b =>
    cases b with
    | false => simp [JVal.truthy] at h
    | true => simp [pystr, JVal.pyrepr]
  | int n => exact intToString_ne_empty n
  | str s => simpa [JVal.truthy] using h
  | arr xs =>
    show "[" ++ pyReprArr xs ++ "]" ≠ ""
    intro hc
    have h0 : ("[" ++ pyReprArr xs ++ "]").length = 0 := by rw [hc]; rfl
    rw [String.length_append, String.length_append] at h0
    have h1 : ("[" : String).length = 1 := rfl
    omega
  | obj kvs =>
    show "\x7b" ++ pyReprObj kvs ++ "\x7d" ≠ ""
    intro hc
    have h0 : ("\x7b" ++ pyReprObj kvs ++ "\x7d").length = 0 := by rw [hc]; rfl
    rw [String.length_append, String.length_append] at h0
    have h1 : ("\x7b" : String).length = 1 := rfl
    omega

namespace Merge

theorem keysAfter_nil (seen : List DKey) : keysAfter seen [] = seen := rfl

theorem keysAfter_cons (seen : List DKey) (d : Obj) (ds : List Obj) :
    keysAfter seen (d :: ds)
      = keysAfter (if diag_key d ∈ seen then seen else diag_key d :: seen) ds := rfl

theorem mem_keysAfter_of_mem (k : DKey) :
    ∀ (ds : List Obj) (seen : List DKey), k ∈ seen → k ∈ keysAfter seen ds := by
  intro ds
  induction ds with
  | nil => intro seen h; exact h
  | cons d tl ih =>
    intro seen h
    rw [keysAfter_cons]
    apply ih
    split
    · exact h
    · exact List.mem_cons_of_mem _ h

theorem key_mem_keysAfter (d : Obj) :
    ∀ (ds : List Obj) (seen : List DKey), d ∈ ds → diag_key d ∈ keysAfter seen ds := by
  intro ds
  induction ds with
  | nil => intro seen h; cases h
  | cons e tl ih =>
    intro seen h
    rw [keysAfter_cons]
    rcases List.mem_cons.mp h with he | htl
    · subst he
      apply mem_keysAfter_of_mem
      split
      · assumption
      · exact List.mem_cons_self _ _
    · exact ih _ htl

theorem dedup_pass_append (xs : List Obj) :
    ∀ (seen : List DKey) (ys : List Obj),
      dedup_pass seen (xs ++ ys) = dedup_pass seen xs ++ dedup_pass (keysAfter seen xs) ys := by
  induction xs with
  | nil => intro seen ys; rfl
  | cons d tl ih =>
    intro seen ys
    by_cases h : diag_key d ∈ seen
    · have l1 : dedup_pass seen (d :: (tl ++ ys)) = dedup_pass seen (tl ++ ys) := by
        simp [dedup_pass, h]
      have l2 : dedup_pass seen (d :: tl) = dedup_pass seen tl := by
        simp [dedup_pass, h]
      rw [List.cons_append, l1, l2, keysAfter_cons, if_pos h, ih]
    · have l1 : dedup_pass seen (d :: (tl ++ ys))
          = d :: dedup_pass (diag_key d :: seen) (tl ++ ys) := by
        simp [dedup_pass, h]
      have l2 : dedup_pass seen (d :: tl) = d :: dedup_pass (diag_key d :: seen) tl := by
        simp [dedup_pass, h]
      rw [List.cons_append, l1, l2, keysAfter_cons, if_neg h, ih, List.cons_append]

theorem dedup_pass_eq_nil (ys : List Obj) :
    ∀ (seen : List DKey), (∀ d ∈ ys, diag_key d ∈ seen) → dedup_pass seen ys = [] := by
  induction ys with
  | nil => intro seen _; rfl
  | cons d tl ih =>
    intro seen h
    have hd := h d (List.mem_cons_self _ _)
    simp only [dedup_pass, if_pos hd]
    exact ih seen (fun e he => h e (List.mem_cons_of_mem _ he))

theorem dedup_pass_sublist (ds : List Obj) :
    ∀ (seen : List DKey), List.Sublist (dedup_pass seen ds) ds := by
  induction ds with
  | nil => intro seen; exact List.Sublist.refl _
  | cons d tl ih =>
    intro seen
    by_cases h : diag_key d ∈ seen
    · simp only [dedup_pass, if_pos h]
      exact (ih seen).cons d
    · simp only [dedup_pass, if_neg h]
      exact (ih _).cons₂ d

theorem dedup_pass_char (ds : List Obj) :
    ∀ (seen : List DKey),
      dedup_pass seen ds
        = firstOcc diag_key (ds.filter fun d => !(decide (diag_key d ∈ seen))) := by
  induction ds with
  | nil => intro seen; simp [dedup_pass, firstOcc]
  | cons d tl ih =>
    intro seen
    by_cases h : diag_key d ∈ seen
    · have l1 : dedup_pass seen (d :: tl) = dedup_pass seen tl := by
        simp [dedup_pass, h]
      have hf : (d :: tl).filter (fun e => !(decide (diag_key e ∈ seen)))
          = tl.filter (fun e => !(decide (diag_key e ∈ seen))) := by
        simp [List.filter_cons, h]
      rw [l1, hf, ih]
    · have l1 : dedup_pass seen (d :: tl) = d :: dedup_pass (diag_key d :: seen) tl := by
        simp [dedup_pass, h]
      have hf : (d :: tl).filter (fun e => !(decide (diag_key e ∈ seen)))
          = d :: tl.filter (fun e => !(decide (diag_key e ∈ seen))) := by
        simp [List.filter_cons, h]
      rw [l1, hf, ih, firstOcc, List.filter_filter]
      congr 1
      apply congrArg
      apply List.filter_congr
      intro b _
      by_cases hb : diag_key b = diag_key d
      · simp [hb, h, List.mem_cons]
      · by_cases hs : diag_key b ∈ seen <;> simp [hb, hs, List.mem_cons]

end Merge

theorem firstOcc_sublist {α κ : Type} [DecidableEq κ] (key : α → κ) (l : List α) :
    List.Sublist (firstOcc key l) l := by
  induction l using firstOcc.induct key with
  | case1 => simp [firstOcc]
  | case2 a as ih =>
    rw [firstOcc]
    exact (ih.trans (List.filter_sublist _)).cons₂ a

theorem mem_of_mem_firstOcc {α κ : Type} [DecidableEq κ] (key : α → κ) (l : List α)
    (x : α) (h : x ∈ firstOcc key l) : x ∈ l :=
  (firstOcc_sublist key l).subset h

theorem firstOcc_eq_self {α κ : Type} [DecidableEq κ] (key : α → κ) (l : List α)
    (h : (l.map key).Nodup) : firstOcc key l = l := by
  induction l using firstOcc.induct key with
  | case1 => simp [firstOcc]
  | case2 a as ih =>
    rw [List.map_cons, List.nodup_cons] at h
    have h1 : (as.filter fun b => !(decide (key b = key a))) = as := by
      apply List.filter_eq_self.mpr
      intro b hb
      simp only [Bool.not_eq_true', decide_eq_false_iff_not]
      intro hk
      exact h.1 (hk ▸ List.mem_map_of_mem key hb)
    rw [firstOcc, h1]
    rw [h1] at ih
    rw [ih h.2]

theorem firstOcc_map_key_nodup {α κ : Type} [DecidableEq κ] (key : α → κ) (l : List α) :
    ((firstOcc key l).map key).Nodup := by
  induction l using firstOcc.induct key with
  | case1 => simp [firstOcc]
  | case2 a as ih =>
    rw [firstOcc, List.map_cons, List.nodup_cons]
    refine ⟨?_, ih⟩
    intro hmem
    rcases List.mem_map.mp hmem with ⟨x, hx, hkx⟩
    have hx' := mem_of_mem_firstOcc _ _ _ hx
    have := List.of_mem_filter hx'
    simp only [Bool.not_eq_true', decide_eq_false_iff_not] at this
    exact this hkx

namespace Merge

theorem dedup_char (ds : List Obj) : dedup ds = firstOcc diag_key ds := by
  have h := dedup_pass_char ds []
  have hf : (ds.filter fun d => !(decide (diag_key d ∈ ([] : List DKey)))) = ds := by
    apply List.filter_eq_self.mpr
    intro b _
    simp
  rw [hf] at h
  exact h

theorem dedup_of_nodup_keys (ds : List Obj) (h : (ds.map diag_key).Nodup) :
    dedup ds = ds := by
  rw [dedup_char]
  exact firstOcc_eq_self _ _ h

end Merge

/-- C1: deduplication is idempotent.  Merging a list with itself deduplicates
to the same output as the list alone, and deduplicating an already
deduplicated list returns it unchanged; the canonical key `diag_key` is a
pure function of the record, so the seen-key set reproduces itself. -/
theorem merge_dedup_idempotent (ds : List Obj) :
    Merge.dedup (ds ++ ds) = Merge.dedup ds
    ∧ Merge.dedup (Merge.dedup ds) = Merge.dedup ds := by
  constructor
  · show Merge.dedup_pass [] (ds ++ ds) = Merge.dedup ds
    rw [Merge.dedup_pass_append]
    rw [Merge.dedup_pass_eq_nil ds _ (fun d hd => Merge.key_mem_keysAfter d ds [] hd)]
    simp [Merge.dedup]
  · apply Merge.dedup_of_nodup_keys
    rw [Merge.dedup_char]
    exact firstOcc_map_key_nodup _ _

/-- C2: deduplication keeps exactly the first occurrence of each canonical
key: the output is the subsequence of records whose key has not occurred at
an earlier position, and an input with pairwise distinct keys is returned
unchanged. -/
theorem merge_dedup_first_occurrence (ds : List Obj) :
    Merge.dedup ds = firstOcc Merge.diag_key ds
    ∧ List.Sublist (Merge.dedup ds) ds
    ∧ ((ds.map Merge.diag_key).Nodup → Merge.dedup ds = ds) :=
  ⟨Merge.dedup_char ds, Merge.dedup_pass_sublist ds [],
   Merge.dedup_of_nodup_keys ds⟩

/-- Witness for C2 at a concrete two-record input with distinct keys. -/
theorem merge_dedup_first_occurrence_witness :
    (([[("file", JVal.str "a.c")], [("file", JVal.str "b.c")]].map Merge.diag_key).Nodup
      ∧ Merge.dedup [[("file", JVal.str "a.c")], [("file", JVal.str "b.c")]]
          = [[("file", JVal.str "a.c")], [("file", JVal.str "b.c")]]) :=
  ⟨by decide,
   (merge_dedup_first_occurrence
     [[("file", JVal.str "a.c")], [("file", JVal.str "b.c")]]).2.2 (by decide)⟩

namespace Merge

theorem process_reads_shift (reads : List (Except String JVal)) :
    ∀ (a b : Nat) (l : List Obj),
      reads.foldl read_step (a, b, l)
        = (a + (process_reads reads).1,
           b + (process_reads reads).2.1,
           l ++ (process_reads reads).2.2) := by
  induction reads with
  | nil => intro a b l; simp [process_reads]
  | cons r tl ih =>
    intro a b l
    cases r with
    | ok data =>
      have h1 : List.foldl read_step (a, b, l) (.ok data :: tl)
          = List.foldl read_step (a + 1, b, l ++ extract_items data) tl := rfl
      have h2 : process_reads (.ok data :: tl)
          = List.foldl read_step (0 + 1, 0, [] ++ extract_items data) tl := rfl
      rw [h1, h2, ih, ih]
      simp [Nat.add_assoc, Nat.add_comm 1]
    | error e =>
      have h1 : List.foldl read_step (a, b, l) (.error e :: tl)
          = List.foldl read_step (a, b + 1, l) tl := rfl
      have h2 : process_reads (.error e :: tl)
          = List.foldl read_step (0, 0 + 1, []) tl := rfl
      rw [h1, h2, ih, ih]
      simp [Nat.add_assoc, Nat.add_comm 1]

theorem process_reads_cons_error (e : String) (tl : List (Except String JVal)) :
    process_reads (.error e :: tl)
      = ((process_reads tl).1, (process_reads tl).2.1 + 1, (process_reads tl).2.2) := by
  have h2 : process_reads (.error e :: tl) = List.foldl read_step (0, 0 + 1, []) tl := rfl
  rw [h2, process_reads_shift]
  simp [Nat.add_comm 1]

theorem process_reads_append (xs ys : List (Except String JVal)) :
    process_reads (xs ++ ys)
      = ((process_reads xs).1 + (process_reads ys).1,
         (process_reads xs).2.1 + (process_reads ys).2.1,
         (process_reads xs).2.2 ++ (process_reads ys).2.2) := by
  show List.foldl read_step (0, 0, []) (xs ++ ys) = _
  rw [List.foldl_append]
  have hx : List.foldl read_step (0, 0, []) xs = process_reads xs := rfl
  rw [hx]
  have : process_reads xs
      = ((process_reads xs).1, (process_reads xs).2.1, (process_reads xs).2.2) := rfl
  rw [this, process_reads_shift]

end Merge

namespace Merge

theorem process_reads_all_errors (msgs : List String) :
    process_reads (msgs.map Except.error) = (0, msgs.length, []) := by
  induction msgs with
  | nil => rfl
  | cons m tl ih =>
    rw [List.map_cons, process_reads_cons_error, ih]
    simp

end Merge

/-- C3 counterexample: with a single existing input file whose read fails
(every input unreadable), merge_diagnostics.main still exits 0 — the
success code, not a distinguishable non-zero "no usable input" result. -/
theorem merge_all_unreadable_success_exit :
    (Merge.merge_main [Except.error "unreadable"] false).exitCode = 0
    ∧ (Merge.merge_main [Except.error "unreadable"] false).read_fail = 1
    ∧ (Merge.merge_main [Except.error "unreadable"] false).exitCode ≠ 2 :=
  ⟨rfl, rfl, by decide⟩

/-- C3 (amended): a failed read of one document only skips that document,
bumping `read_fail` by one, and processing continues.  The non-zero
"no usable input" exit code 2 is produced exactly when the list of existing
input files is empty; for any non-empty list — even one whose reads all
fail — the run exits 0, with `read_fail` counting every failure and an
empty output when every read failed. -/
theorem merge_failure_isolation :
    (∀ (pre post : List (Except String JVal)) (e : String),
        Merge.process_reads (pre ++ Except.error e :: post)
          = ((Merge.process_reads (pre ++ post)).1,
             (Merge.process_reads (pre ++ post)).2.1 + 1,
             (Merge.process_reads (pre ++ post)).2.2))
    ∧ (∀ (reads : List (Except String JVal)) (nd : Bool),
        (Merge.merge_main reads nd).exitCode = if reads.isEmpty then 2 else 0)
    ∧ (∀ (msgs : List String) (nd : Bool), msgs ≠ [] →
        Merge.merge_main (msgs.map Except.error) nd
          = ⟨0, 0, msgs.length, []⟩) := by
  refine ⟨?_, ?_, ?_⟩
  · intro pre post e
    rw [Merge.process_reads_append, Merge.process_reads_cons_error,
      Merge.process_reads_append]
    simp [Nat.add_assoc]
  · intro reads nd
    cases reads <;> rfl
  · intro msgs nd h
    have hne : (msgs.map Except.error : List (Except String JVal)).isEmpty = false := by
      cases msgs with
      | nil => exact absurd rfl h
      | cons m tl => rfl
    show Merge.merge_main (msgs.map Except.error) nd = _
    rw [Merge.merge_main, if_neg (by simp [hne])]
    rw [Merge.process_reads_all_errors]
    cases nd <;> rfl

/-- Witness for C3 (amended) at concrete inputs: one good document plus one
failing read, and a run whose single input is unreadable. -/
theorem merge_failure_isolation_witness :
    Merge.process_reads ([Except.ok (JVal.arr [])] ++ Except.error "bad" :: [])
      = ((Merge.process_reads ([Except.ok (JVal.arr [])] ++ [])).1,
         (Merge.process_reads ([Except.ok (JVal.arr [])] ++ [])).2.1 + 1,
         (Merge.process_reads ([Except.ok (JVal.arr [])] ++ [])).2.2)
    ∧ Merge.merge_main (["boom"].map Except.error) false
        = ⟨0, 0, (["boom"] : List String).length, []⟩ :=
  ⟨(merge_failure_isolation).1 [Except.ok (JVal.arr [])] [] "bad",
   (merge_failure_isolation).2.2 ["boom"] false (by decide)⟩

/-- C10: the two scripts derive the same file identity.  The reporter's
`get_file` returns `None` exactly when the merge script's dedup-key file
component is the empty string, and otherwise the same string wrapped as a
value — the reporter groups by the identity used for deduplication. -/
theorem get_file_agreement (d : Obj) :
    Report.get_file d
      = (if Merge.get_file d = "" then JVal.null
         else JVal.str (Merge.get_file d)) := by
  have key : ∀ (w : JVal),
      (if w.truthy then JVal.str (pystr w) else JVal.null)
        = (if (if w.truthy then pystr w else "") = "" then JVal.null
           else JVal.str (if w.truthy then pystr w else "")) := by
    intro w
    by_cases h : w.truthy = true
    · rw [if_pos h, if_pos h, if_neg (pystr_ne_empty_of_truthy w h)]
    · have h' : w.truthy = false := by simpa using h
      simp [h']
  exact key _

theorem truthy_null : JVal.truthy JVal.null = false := rfl

theorem inner_chain_equiv (kvs : Obj) :
    (if (pyOr (pyGet kvs "path") (pyOr (pyGet kvs "fsPath") (pyGet kvs "uri"))).truthy
     then pystr (pyOr (pyGet kvs "path") (pyOr (pyGet kvs "fsPath") (pyGet kvs "uri")))
     else "")
      = (if (Spec.firstTruthyVal kvs ["path", "fsPath", "uri"]).truthy
         then pystr (Spec.firstTruthyVal kvs ["path", "fsPath", "uri"]) else "") := by
  by_cases h1 : (pyGet kvs "path").truthy <;>
    by_cases h2 : (pyGet kvs "fsPath").truthy <;>
      by_cases h3 : (pyGet kvs "uri").truthy <;>
        simp [pyOr, Spec.firstTruthyVal, h1, h2, h3, truthy_null]

theorem sel_equiv (v : JVal) :
    v.truthy = true →
    (if (match v with
         | JVal.obj kvs => pyOr (pyGet kvs "path") (pyOr (pyGet kvs "fsPath") (pyGet kvs "uri"))
         | w => w).truthy
     then pystr (match v with
         | JVal.obj kvs => pyOr (pyGet kvs "path") (pyOr (pyGet kvs "fsPath") (pyGet kvs "uri"))
         | w => w)
     else "")
      = (match v with
         | JVal.obj kvs =>
             if (Spec.firstTruthyVal kvs ["path", "fsPath", "uri"]).truthy
             then pystr (Spec.firstTruthyVal kvs ["path", "fsPath", "uri"]) else ""
         | w => if w.truthy then pystr w else "") := by
  cases v with
  | obj kvs => intro _; exact inner_chain_equiv kvs
  | null => intro hv; exact Bool.noConfusion (truthy_null ▸ hv)
  | bool b => intro _; rfl
  | int n => intro _; rfl
  | str s => intro _; rfl
  | arr xs => intro _; rfl

theorem sel_falsy (v : JVal) :
    v.truthy = false →
    (if (match v with
         | JVal.obj kvs => pyOr (pyGet kvs "path") (pyOr (pyGet kvs "fsPath") (pyGet kvs "uri"))
         | w => w).truthy
     then pystr (match v with
         | JVal.obj kvs => pyOr (pyGet kvs "path") (pyOr (pyGet kvs "fsPath") (pyGet kvs "uri"))
         | w => w)
     else "") = "" := by
  cases v with
  | obj kvs =>
    intro hv
    have hk : kvs = [] := by
      simp [JVal.truthy, List.isEmpty_iff] at hv
      exact hv
    subst hk
    rfl
  | null => intro _; rfl
  | bool b => intro hv; simp [JVal.truthy] at hv; subst hv; rfl
  | int n => intro hv; simp only [JVal.truthy] at hv; simp [hv, JVal.truthy]
  | str s => intro hv; simp only [JVal.truthy] at hv; simp [hv, JVal.truthy]
  | arr xs => intro hv; simp only [JVal.truthy] at hv; simp [hv, JVal.truthy]

/-- C5 counterexample: on a record whose `resource` key is present with a
falsy value (the empty string) and whose `file` key holds "x", the code
derives "x", while the first *present* key (`resource`) would give the
empty string: the lookup chain selects by truthiness, not presence. -/
theorem get_file_first_present_counterexample :
    Merge.get_file [("resource", JVal.str ""), ("file", JVal.str "x")] = "x"
    ∧ Spec.get_file_first_present [("resource", JVal.str ""), ("file", JVal.str "x")] = ""
    ∧ ("x" : String) ≠ "" :=
  ⟨rfl, rfl, by decide⟩

/-- C5 (amended): the derived file is the first *truthy* value among
`resource`, `file`, `uri`, `path` (and when that value is a mapping, the
first truthy value among its `path`, `fsPath`, `uri`), coerced to a string,
with the empty string when no truthy value is found. -/
theorem get_file_matches_first_truthy (d : Obj) :
    Merge.get_file d = Spec.get_file_first_truthy d := by
  by_cases h1 : (pyGet d "resource").truthy
  · have hc : pyOr (pyGet d "resource")
        (pyOr (pyGet d "file") (pyOr (pyGet d "uri") (pyGet d "path")))
          = pyGet d "resource" := by simp [pyOr, h1]
    have hf : Spec.firstTruthyVal d ["resource", "file", "uri", "path"]
        = pyGet d "resource" := by simp [Spec.firstTruthyVal, h1]
    unfold Merge.get_file Spec.get_file_first_truthy
    simp only [hc, hf]
    exact sel_equiv _ h1
  · by_cases h2 : (pyGet d "file").truthy
    · have hc : pyOr (pyGet d "resource")
          (pyOr (pyGet d "file") (pyOr (pyGet d "uri") (pyGet d "path")))
            = pyGet d "file" := by simp [pyOr, h1, h2]
      have hf : Spec.firstTruthyVal d ["resource", "file", "uri", "path"]
          = pyGet d "file" := by simp [Spec.firstTruthyVal, h1, h2]
      unfold Merge.get_file Spec.get_file_first_truthy
      simp only [hc, hf]
      exact sel_equiv _ h2
    · by_cases h3 : (pyGet d "uri").truthy
      · have hc : pyOr (pyGet d "resource")
            (pyOr (pyGet d "file") (pyOr (pyGet d "uri") (pyGet d "path")))
              = pyGet d "uri" := by simp [pyOr, h1, h2, h3]
        have hf : Spec.firstTruthyVal d ["resource", "file", "uri", "path"]
            = pyGet d "uri" := by simp [Spec.firstTruthyVal, h1, h2, h3]
        unfold Merge.get_file Spec.get_file_first_truthy
        simp only [hc, hf]
        exact sel_equiv _ h3
      · by_cases h4 : (pyGet d "path").truthy
        · have hc : pyOr (pyGet d "resource")
              (pyOr (pyGet d "file") (pyOr (pyGet d "uri") (pyGet d "path")))
                = pyGet d "path" := by simp [pyOr, h1, h2, h3, h4]
          have hf : Spec.firstTruthyVal d ["resource", "file", "uri", "path"]
              = pyGet d "path" := by simp [Spec.firstTruthyVal, h1, h2, h3, h4]
          unfold Merge.get_file Spec.get_file_first_truthy
          simp only [hc, hf]
          exact sel_equiv _ h4
        · have h4' : (pyGet d "path").truthy = false := by simpa using h4
          have hc : pyOr (pyGet d "resource")
              (pyOr (pyGet d "file") (pyOr (pyGet d "uri") (pyGet d "path")))
                = pyGet d "path" := by simp [pyOr, h1, h2, h3]
          have hf : Spec.firstTruthyVal d ["resource", "file", "uri", "path"]
              = JVal.null := by simp [Spec.firstTruthyVal, h1, h2, h3, h4]
          unfold Merge.get_file Spec.get_file_first_truthy
          simp only [hc, hf]
          refine Eq.trans (sel_falsy _ h4') ?_
          simp [truthy_null]

/-- C4 counterexample: the canonical key does not coerce positions to
integers.  On a record with `startLineNumber = "abc"` (non-coercible: the
reporter's `to_int_or_none` yields `None`), the key's line component is the
raw string "abc", not the empty/unset marker the claim requires for a
non-coercible value. -/
theorem merge_key_position_not_coerced :
    Report.to_int_or_none (JVal.str "abc") = none
    ∧ (Merge.diag_key [("startLineNumber", JVal.str "abc"),
        ("startColumn", JVal.str "3")]).2.2.1 = "abc"
    ∧ ("abc" : String) ≠ "" :=
  ⟨rfl, rfl, by decide⟩

/-- C4 (amended): only the report rows coerce positions; the amended
behavior over every branch of both extractions.  When `startLineNumber`
and `startColumn` are both non-None, the reporter's `get_pos` applies
`to_int_or_none` to them (non-coercible values become `None`) while the
merge key's `get_pos` stringifies the same values without integer
coercion.  Otherwise both fall back to `range.start`: when `range` and
`range.start` are dicts, the reporter coerces `start.line` and
`start.character` (absent values become `None`) and the merge key
stringifies them (absent values become the empty string); when `range`
(or its `start`) is not a dict, the reporter yields `(None, None)` and
the merge key stringifies the original `startLineNumber`/`startColumn`
values (absent again the empty string).  A `None` position surfaces as an
empty cell in the detailed row.  Both extractions are total functions of
the record. -/
theorem report_position_coercion (args : Report.Args) (d : Obj) (rk sk : Obj) :
    ((pyGet d "startLineNumber").isNone = false →
     (pyGet d "startColumn").isNone = false →
        Report.get_pos d
          = (Report.to_int_or_none (pyGet d "startLineNumber"),
             Report.to_int_or_none (pyGet d "startColumn"))
        ∧ Merge.get_pos d
          = (pystr (pyGet d "startLineNumber"), pystr (pyGet d "startColumn")))
    ∧ (((pyGet d "startLineNumber").isNone = true
        ∨ (pyGet d "startColumn").isNone = true) →
       pyGetD d "range" (JVal.obj []) = JVal.obj rk →
       pyGetD rk "start" (JVal.obj []) = JVal.obj sk →
        Report.get_pos d
          = (Report.to_int_or_none (pyGet sk "line"),
             Report.to_int_or_none (pyGet sk "character"))
        ∧ Merge.get_pos d
          = (if (pyGet sk "line").isNone then "" else pystr (pyGet sk "line"),
             if (pyGet sk "character").isNone then ""
             else pystr (pyGet sk "character")))
    ∧ (((pyGet d "startLineNumber").isNone = true
        ∨ (pyGet d "startColumn").isNone = true) →
       jObj? (pyGetD d "range" (JVal.obj [])) = none →
        Report.get_pos d = (none, none)
        ∧ Merge.get_pos d
          = (if (pyGet d "startLineNumber").isNone then ""
             else pystr (pyGet d "startLineNumber"),
             if (pyGet d "startColumn").isNone then ""
             else pystr (pyGet d "startColumn")))
    ∧ (((pyGet d "startLineNumber").isNone = true
        ∨ (pyGet d "startColumn").isNone = true) →
       pyGetD d "range" (JVal.obj []) = JVal.obj rk →
       jObj? (pyGetD rk "start" (JVal.obj [])) = none →
        Report.get_pos d = (none, none)
        ∧ Merge.get_pos d
          = (if (pyGet d "startLineNumber").isNone then ""
             else pystr (pyGet d "startLineNumber"),
             if (pyGet d "startColumn").isNone then ""
             else pystr (pyGet d "startColumn")))
    ∧ Report.to_int_or_none JVal.null = none
    ∧ (Report.detailed_row args d).get? 3
        = some (match (Report.get_pos d).1 with | some n => toString n | none => "")
    ∧ (Report.detailed_row args d).get? 4
        = some (match (Report.get_pos d).2 with
                | some n => toString n | none => "") := by
  refine ⟨?_, ?_, ?_, ?_, rfl, rfl, rfl⟩
  · intro h1 h2
    constructor
    · unfold Report.get_pos
      simp only [h1, h2, Bool.not_false, Bool.and_self, if_true]
    · unfold Merge.get_pos
      simp only [h1, h2, Bool.not_false, Bool.and_self, if_true]
  · intro hg hr hs
    have hguard : (!(pyGet d "startLineNumber").isNone
        && !(pyGet d "startColumn").isNone) = false := by
      rcases hg with h | h <;> simp [h]
    constructor
    · unfold Report.get_pos
      simp only [hguard, Bool.false_eq_true, if_false, hr, hs]
    · unfold Merge.get_pos
      simp only [hguard, Bool.false_eq_true, if_false, hr, hs]
  · intro hg hro
    have hguard : (!(pyGet d "startLineNumber").isNone
        && !(pyGet d "startColumn").isNone) = false := by
      rcases hg with h | h <;> simp [h]
    constructor
    · unfold Report.get_pos
      simp only [hguard, Bool.false_eq_true, if_false]
      revert hro
      generalize pyGetD d "range" (JVal.obj []) = v
      intro hro
      cases v <;> first | rfl | simp [jObj?] at hro
    · unfold Merge.get_pos
      simp only [hguard, Bool.false_eq_true, if_false]
      revert hro
      generalize pyGetD d "range" (JVal.obj []) = v
      intro hro
      cases v <;> first | rfl | simp [jObj?] at hro
  · intro hg hr hso
    have hguard : (!(pyGet d "startLineNumber").isNone
        && !(pyGet d "startColumn").isNone) = false := by
      rcases hg with h | h <;> simp [h]
    constructor
    · unfold Report.get_pos
      simp only [hguard, Bool.false_eq_true, if_false, hr]
      revert hso
      generalize pyGetD rk "start" (JVal.obj []) = v
      intro hso
      cases v <;> first | rfl | simp [jObj?] at hso
    · unfold Merge.get_pos
      simp only [hguard, Bool.false_eq_true, if_false, hr]
      revert hso
      generalize pyGetD rk "start" (JVal.obj []) = v
      intro hso
      cases v <;> first | rfl | simp [jObj?] at hso

/-- Witness for C4 (amended): a record whose positions are both present
(with a non-coercible line), and a record carrying only `range.start` with
an absent `line` — the reporter yields `None` for the absent value while
the merge key yields the empty string, and the `None` line surfaces as an
empty detailed-row cell. -/
theorem report_position_coercion_witness :
    Report.get_pos [("startLineNumber", JVal.str "abc"), ("startColumn", JVal.int 3)]
        = (none, some 3)
    ∧ Report.get_pos [("range", JVal.obj [("start", JVal.obj [("character", JVal.int 7)])])]
        = (none, some 7)
    ∧ Merge.get_pos [("range", JVal.obj [("start", JVal.obj [("character", JVal.int 7)])])]
        = ("", "7")
    ∧ (Report.detailed_row ⟨"clangd", "", "", "", "", 0⟩
        [("range", JVal.obj [("start", JVal.obj [("character", JVal.int 7)])])]).get? 3
        = some "" := by
  have h1 := (report_position_coercion ⟨"clangd", "", "", "", "", 0⟩
    [("startLineNumber", JVal.str "abc"), ("startColumn", JVal.int 3)] [] []).1
    rfl rfl
  have h2 := (report_position_coercion ⟨"clangd", "", "", "", "", 0⟩
    [("range", JVal.obj [("start", JVal.obj [("character", JVal.int 7)])])]
    [("start", JVal.obj [("character", JVal.int 7)])]
    [("character", JVal.int 7)]).2.1 (Or.inl rfl) rfl rfl
  have h3 := (report_position_coercion ⟨"clangd", "", "", "", "", 0⟩
    [("range", JVal.obj [("start", JVal.obj [("character", JVal.int 7)])])]
    [] []).2.2.2.2.2.1
  exact ⟨h1.1.trans (by decide), h2.1.trans (by decide), h2.2.trans (by decide),
    h3.trans (by decide)⟩

/-- C6: the per-file summary table as emitted by the code.  For the input
record from the repository's own tests with day 2026-01-01 and version
release-42, the header declares four columns but the data row is
`[file, count]` — two cells, with the day and version context absent. -/
theorem report_simple_table_missing_day_version :
    Report.simple_table ⟨"clangd", "", "", "release-42", "2026-01-01", 0⟩
        [[("source", JVal.str "clangd"), ("message", JVal.str "ok"),
          ("file", JVal.str "a.c")]]
      = [["day", "version", "file", "count"], ["a.c", "1"]]
    ∧ Report.simpleHeader.length = 4
    ∧ (["a.c", "1"] : List String).length = 2 :=
  ⟨rfl, rfl, rfl⟩

namespace Report

theorem mem_capped_valid (args : Args) (items : List Obj) (d : Obj)
    (h : d ∈ capped args items) : is_valid_diagnostic_item d = true := by
  have hf : d ∈ filteredItems args items := by
    unfold capped at h
    split at h
    · exact List.mem_of_mem_take h
    · exact h
  have hv : d ∈ valid_items items := List.mem_of_mem_filter hf
  exact List.of_mem_filter hv

theorem skipped_count_eq (items : List Obj) :
    skipped_count items
      = (items.filter fun x => !is_valid_diagnostic_item x).length := by
  unfold skipped_count valid_items
  have h := List.length_eq_length_filter_add (l := items) is_valid_diagnostic_item
  omega

end Report

/-- C7: the validity gate.  A record whose `source` or `message` is not a
string never reaches the records underlying either output table (the capped
list, from which the detailed rows and the per-file counter are both built),
and the reported skipped count is exactly the number of such records. -/
theorem report_validity_gate (args : Report.Args) (items : List Obj) (d : Obj)
    (hd : Report.is_valid_diagnostic_item d = false) :
    d ∉ Report.capped args items
    ∧ Report.skipped_count items
        = (items.filter fun x => !Report.is_valid_diagnostic_item x).length
    ∧ Report.detailed_table args items
        = Report.detailedHeader :: (Report.capped args items).map (Report.detailed_row args)
    ∧ Report.simple_table args items
        = Report.simpleHeader
            :: (Report.most_common (Report.perFileCounter (Report.capped args items))).map
                Report.simpleRow := by
  refine ⟨?_, Report.skipped_count_eq items, rfl, rfl⟩
  intro hmem
  have := Report.mem_capped_valid args items d hmem
  rw [hd] at this
  exact Bool.noConfusion this

/-- Witness for C7: a record with a numeric `source` is absent from the
capped records of a two-record input, and the skipped count is one. -/
theorem report_validity_gate_witness :
    Report.is_valid_diagnostic_item [("source", JVal.int 123), ("message", JVal.str "m")] = false
    ∧ [("source", JVal.int 123), ("message", JVal.str "m")]
        ∉ Report.capped ⟨"*", "", "", "", "", 0⟩
          [[("source", JVal.str "clangd"), ("message", JVal.str "ok")],
           [("source", JVal.int 123), ("message", JVal.str "m")]]
    ∧ Report.skipped_count
        [[("source", JVal.str "clangd"), ("message", JVal.str "ok")],
         [("source", JVal.int 123), ("message", JVal.str "m")]] = 1 :=
  ⟨rfl,
   (report_validity_gate ⟨"*", "", "", "", "", 0⟩
     [[("source", JVal.str "clangd"), ("message", JVal.str "ok")],
      [("source", JVal.int 123), ("message", JVal.str "m")]]
     [("source", JVal.int 123), ("message", JVal.str "m")] rfl).1,
   by decide⟩

/-- C8: cell sanitization.  A cell value whose text starts with `=`, `+`,
`-` or `@` is written with a neutralizing apostrophe prefix and any other
value is written unchanged; in the detailed row exactly the textual cells
(day, version, file, code, source, message) pass through
`sanitize_csv_cell`, while the two numeric position cells are written raw,
and the per-file data rows sanitize only the file cell. -/
theorem report_cell_sanitization (v : JVal) (args : Report.Args) (d : Obj)
    (items : List Obj) :
    (Report.startsFormula (Report.cellText v) = true →
        Report.sanitize_csv_cell v = apos ++ Report.cellText v)
    ∧ (Report.startsFormula (Report.cellText v) = false →
        Report.sanitize_csv_cell v = Report.cellText v)
    ∧ Report.detailed_row args d
        = [Report.sanitize_csv_cell (JVal.str args.day),
           Report.sanitize_csv_cell (JVal.str args.version),
           Report.sanitize_csv_cell (pyOr (Report.get_file d) (JVal.str "")),
           (match (Report.get_pos d).1 with | some n => toString n | none => ""),
           (match (Report.get_pos d).2 with | some n => toString n | none => ""),
           Report.sanitize_csv_cell (pyOr (Report.get_code d) (JVal.str "")),
           Report.sanitize_csv_cell (pyGetD d "source" (JVal.str "")),
           Report.sanitize_csv_cell (pyGetD d "message" (JVal.str ""))]
    ∧ (Report.simple_table args items).tail
        = (Report.most_common (Report.perFileCounter (Report.capped args items))).map
            (fun p => [Report.sanitize_csv_cell (JVal.str p.1), toString p.2]) := by
  refine ⟨?_, ?_, rfl, rfl⟩
  · intro h
    simp [Report.sanitize_csv_cell, h]
  · intro h
    simp [Report.sanitize_csv_cell, h]

/-- Witness for C8: the formula-looking message "=2+2" is prefixed with the
apostrophe, and the plain value "ok" is written unchanged. -/
theorem report_cell_sanitization_witness :
    Report.sanitize_csv_cell (JVal.str "=2+2") = apos ++ "=2+2"
    ∧ Report.sanitize_csv_cell (JVal.str "ok") = "ok" :=
  ⟨(report_cell_sanitization (JVal.str "=2+2") ⟨"clangd", "", "", "", "", 0⟩ [] []).1
      (by decide),
   (report_cell_sanitization (JVal.str "ok") ⟨"clangd", "", "", "", "", 0⟩ [] []).2.1
      (by decide)⟩

namespace Report

theorem insertDesc_perm (x : String × Nat) (l : List (String × Nat)) :
    List.Perm (insertDesc x l) (x :: l) := by
  induction l with
  | nil => exact List.Perm.refl _
  | cons y ys ih =>
    unfold insertDesc
    split
    · exact List.Perm.refl _
    · exact (ih.cons y).trans (List.Perm.swap x y ys)

theorem most_common_perm (c : List (String × Nat)) :
    List.Perm (most_common c) c := by
  induction c with
  | nil => exact List.Perm.refl _
  | cons x xs ih =>
    unfold most_common
    exact (insertDesc_perm x (most_common xs)).trans (ih.cons x)

theorem insertDesc_pairwise (x : String × Nat) (l : List (String × Nat))
    (h : l.Pairwise (fun a b => b.2 ≤ a.2)) :
    (insertDesc x l).Pairwise (fun a b => b.2 ≤ a.2) := by
  induction l with
  | nil => simp [insertDesc]
  | cons y ys ih =>
    rw [List.pairwise_cons] at h
    unfold insertDesc
    split
    · rename_i hle
      rw [List.pairwise_cons]
      refine ⟨?_, List.pairwise_cons.mpr h⟩
      intro z hz
      rcases List.mem_cons.mp hz with hzy | hzys
      · subst hzy; exact hle
      · exact le_trans (h.1 z hzys) hle
    · rename_i hgt
      rw [List.pairwise_cons]
      refine ⟨?_, ih h.2⟩
      intro z hz
      have hz' := (insertDesc_perm x ys).mem_iff.mp hz
      rcases List.mem_cons.mp hz' with hzx | hzys
      · subst hzx
        omega
      · exact h.1 z hzys

theorem most_common_sorted (c : List (String × Nat)) :
    (most_common c).Pairwise (fun a b => b.2 ≤ a.2) := by
  induction c with
  | nil => simp [most_common]
  | cons x xs ih =>
    unfold most_common
    exact insertDesc_pairwise x (most_common xs) ih

theorem filter_insertDesc_eq (x : String × Nat) (l : List (String × Nat)) :
    (insertDesc x l).filter (fun p => p.2 == x.2)
      = x :: l.filter (fun p => p.2 == x.2) := by
  induction l with
  | nil => simp [insertDesc]
  | cons y ys ih =>
    unfold insertDesc
    split
    · rw [List.filter_cons, List.filter_cons]
      simp
    · rename_i hgt
      have hy : (y.2 == x.2) = false := by
        simp only [beq_eq_false_iff_ne, ne_eq]
        omega
      rw [List.filter_cons, List.filter_cons, hy]
      simp only [Bool.false_eq_true, if_false]
      rw [ih]

theorem filter_insertDesc_ne (x : String × Nat) (n : Nat) (hn : x.2 ≠ n)
    (l : List (String × Nat)) :
    (insertDesc x l).filter (fun p => p.2 == n)
      = l.filter (fun p => p.2 == n) := by
  induction l with
  | nil =>
    simp only [insertDesc, List.filter_cons, List.filter_nil]
    simp [hn]
  | cons y ys ih =>
    unfold insertDesc
    split
    · rw [List.filter_cons]
      have hx : (x.2 == n) = false := by simp [hn]
      rw [hx]
      simp
    · rw [List.filter_cons, List.filter_cons, ih]

theorem most_common_filter (c : List (String × Nat)) (n : Nat) :
    (most_common c).filter (fun p => p.2 == n)
      = c.filter (fun p => p.2 == n) := by
  induction c with
  | nil => rfl
  | cons x xs ih =>
    unfold most_common
    by_cases hx : x.2 = n
    · subst hx
      rw [filter_insertDesc_eq, ih, List.filter_cons]
      simp
    · rw [filter_insertDesc_ne x n hx, ih, List.filter_cons]
      have : (x.2 == n) = false := by simp [hx]
      rw [this]
      simp

end Report

theorem mem_firstOcc_id_aux :
    ∀ (n : Nat) (ks : List String), ks.length ≤ n →
      ∀ k, k ∈ ks → k ∈ firstOcc id ks := by
  intro n
  induction n with
  | zero =>
    intro ks h k hk
    have : ks = [] := List.length_eq_zero.mp (Nat.le_zero.mp h)
    subst this
    cases hk
  | succ m ih =>
    intro ks hlen k hk
    cases ks with
    | nil => cases hk
    | cons a as =>
      rw [firstOcc]
      rcases List.mem_cons.mp hk with hka | hkas
      · exact hka ▸ List.mem_cons_self _ _
      · by_cases hkeq : k = a
        · exact hkeq ▸ List.mem_cons_self _ _
        · apply List.mem_cons_of_mem
          apply ih
          · exact le_trans (List.length_filter_le _ _)
              (Nat.le_of_succ_le_succ (by simpa using hlen))
          · exact List.mem_filter.mpr ⟨hkas, by simpa using hkeq⟩

theorem mem_firstOcc_id (ks : List String) (k : String) :
    k ∈ firstOcc id ks ↔ k ∈ ks :=
  ⟨mem_of_mem_firstOcc id ks k,
   mem_firstOcc_id_aux ks.length ks (Nat.le_refl _) k⟩

theorem firstOcc_id_append_aux :
    ∀ (n : Nat) (l : List String), l.length ≤ n → ∀ (a : String),
      firstOcc id (l ++ [a])
        = if a ∈ l then firstOcc id l else firstOcc id l ++ [a] := by
  intro n
  induction n with
  | zero =>
    intro l h a
    have : l = [] := List.length_eq_zero.mp (Nat.le_zero.mp h)
    subst this
    simp [firstOcc]
  | succ m ih =>
    intro l hlen a
    cases l with
    | nil => simp [firstOcc]
    | cons b as =>
      have hrec : as.length ≤ m := Nat.le_of_succ_le_succ (by simpa using hlen)
      rw [List.cons_append, firstOcc, List.filter_append]
      by_cases hab : a = b
      · have hfa : ([a].filter fun x => !(decide (id x = id b))) = [] := by
          simp [hab]
        rw [hfa, List.append_nil, if_pos (by simp [hab]), firstOcc]
      · have hfa : ([a].filter fun x => !(decide (id x = id b))) = [a] := by
          simp [hab]
        rw [hfa, ih _ (le_trans (List.length_filter_le _ _) hrec) a]
        have hmem : a ∈ (as.filter fun x => !(decide (id x = id b))) ↔ a ∈ as := by
          constructor
          · intro h; exact (List.mem_filter.mp h).1
          · intro h; exact List.mem_filter.mpr ⟨h, by simpa using hab⟩
        by_cases has : a ∈ as
        · rw [if_pos (hmem.mpr has), if_pos (by simp [has]), firstOcc]
        · rw [if_neg (fun hc => has (hmem.mp hc)),
            if_neg (by simp [hab, has]), firstOcc, List.cons_append]

theorem firstOcc_id_append (l : List String) (a : String) :
    firstOcc id (l ++ [a])
      = if a ∈ l then firstOcc id l else firstOcc id l ++ [a] :=
  firstOcc_id_append_aux l.length l (Nat.le_refl _) a

namespace Report

theorem counterOf_append (ks : List String) (k : String) :
    counterOf (ks ++ [k]) = counterAdd (counterOf ks) k := by
  unfold counterOf
  rw [List.foldl_append]
  rfl

theorem counterAdd_keys (c : List (String × Nat)) (k : String) :
    (counterAdd c k).map Prod.fst
      = if (c.any fun p => p.1 = k) then c.map Prod.fst
        else c.map Prod.fst ++ [k] := by
  unfold counterAdd
  split
  · rename_i h
    rw [List.map_map]
    apply List.map_congr_left
    intro p _
    by_cases hp : p.1 = k <;> simp [hp]
  · rename_i h
    rw [List.map_append]
    rfl

theorem counterOf_invariant (ks : List String) :
    (counterOf ks).map Prod.fst = firstOcc id ks
    ∧ ∀ p ∈ counterOf ks, p.2 = ks.count p.1 := by
  induction ks using List.reverseRecOn with
  | nil =>
    refine ⟨by simp [counterOf, firstOcc], ?_⟩
    intro p hp
    cases hp
  | append_singleton ks k ih =>
    obtain ⟨ihk, ihc⟩ := ih
    have hany : ((counterOf ks).any fun p => p.1 = k) = true ↔ k ∈ ks := by
      rw [List.any_eq_true]
      constructor
      · rintro ⟨p, hp, hpk⟩
        have hk : p.1 ∈ (counterOf ks).map Prod.fst := List.mem_map_of_mem _ hp
        rw [ihk, mem_firstOcc_id] at hk
        simpa using (by simpa using hpk) ▸ hk
      · intro hk
        have : k ∈ (counterOf ks).map Prod.fst := by
          rw [ihk, mem_firstOcc_id]; exact hk
        rcases List.mem_map.mp this with ⟨p, hp, hpk⟩
        exact ⟨p, hp, by simp [hpk]⟩
    rw [counterOf_append]
    constructor
    · rw [counterAdd_keys, firstOcc_id_append, ihk]
      by_cases hk : k ∈ ks
      · rw [if_pos (hany.mpr hk), if_pos hk]
      · rw [if_neg (fun hc => hk (hany.mp hc)), if_neg hk]
    · intro p hp
      have hcount : (ks ++ [k]).count p.1
          = ks.count p.1 + if p.1 = k then 1 else 0 := by
        rw [List.count_append]
        by_cases hpk : p.1 = k <;> simp [List.count_singleton, hpk, eq_comm]
      unfold counterAdd at hp
      split at hp
      · rename_i hin
        rcases List.mem_map.mp hp with ⟨q, hq, hbump⟩
        by_cases hqk : q.1 = k
        · rw [if_pos hqk] at hbump
          have h1 : p.1 = k := by rw [← hbump]; exact hqk
          have h2 : p.2 = q.2 + 1 := by rw [← hbump]
          rw [hcount, if_pos h1, h2, ihc q hq]
          have : q.1 = p.1 := by rw [← hbump]
          rw [this]
        · rw [if_neg hqk] at hbump
          subst hbump
          rw [hcount, if_neg hqk, Nat.add_zero]
          exact ihc q hq
      · rename_i hnotin
        rcases List.mem_append.mp hp with hpc | hpk
        · have hp1 : p.1 ≠ k := by
            intro hc
            exact hnotin (List.any_eq_true.mpr ⟨p, hpc, by simp [hc]⟩)
          rw [hcount, if_neg hp1, Nat.add_zero]
          exact ihc p hpc
        · have hpk' : p = (k, 1) := by simpa using hpk
          subst hpk'
          have hk : k ∉ ks := fun hc => by
            simp only [Bool.not_eq_true] at hnotin
            rw [← Bool.not_eq_true, hany] at hnotin
            exact hnotin hc
          rw [hcount]
          simp [List.count_eq_zero.mpr hk]

theorem counterOf_mem_iff (ks : List String) (f : String) (n : Nat) :
    (f, n) ∈ counterOf ks ↔ f ∈ ks ∧ n = ks.count f := by
  obtain ⟨hkeys, hcounts⟩ := counterOf_invariant ks
  constructor
  · intro h
    have hf : f ∈ (counterOf ks).map Prod.fst := List.mem_map_of_mem _ h
    rw [hkeys, mem_firstOcc_id] at hf
    exact ⟨hf, hcounts (f, n) h⟩
  · rintro ⟨hf, hn⟩
    have : f ∈ (counterOf ks).map Prod.fst := by
      rw [hkeys, mem_firstOcc_id]; exact hf
    rcases List.mem_map.mp this with ⟨p, hp, hpf⟩
    have hpn : p.2 = ks.count p.1 := hcounts p hp
    rcases p with ⟨p1, p2⟩
    simp only at hpf hpn
    subst hpf
    have hnp : n = p2 := by rw [hn, hpn]
    subst hnp
    exact hp

theorem perFileCounter_eq (ds : List Obj) :
    perFileCounter ds = counterOf (ds.filterMap fileKey) := by
  suffices h : ∀ (c : List (String × Nat)),
      ds.foldl (fun c d =>
        match fileKey d with
        | some k => counterAdd c k
        | none => c) c
        = (ds.filterMap fileKey).foldl counterAdd c by
    exact h []
  induction ds with
  | nil => intro c; rfl
  | cons d tl ih =>
    intro c
    cases hfk : fileKey d with
    | none =>
      rw [List.foldl_cons, hfk, List.filterMap_cons_none hfk]
      exact ih c
    | some k =>
      rw [List.foldl_cons, hfk, List.filterMap_cons_some hfk, List.foldl_cons]
      exact ih (counterAdd c k)

theorem fileKey_ne_empty (d : Obj) (k : String) (h : fileKey d = some k) :
    k ≠ "" := by
  unfold fileKey at h
  split at h
  · rename_i s heq
    split at h
    · cases h
    · rename_i hs
      rw [Option.some_inj] at h
      exact h ▸ hs
  · cases h

end Report

/-- C9: the per-file summary.  Over the capped records: the counter's keys
are the derived files of the records with a non-empty derived file, in
first-seen order; each key's count is the number of records deriving that
file; `most_common` lists the groups in non-increasing count order; groups
of equal count keep the counter's insertion (first-seen) order; every
listed file is non-empty (empty-file records are excluded from this summary
only); and the detailed table still carries one row per capped record. -/
theorem report_per_file_summary (args : Report.Args) (items : List Obj) :
    (Report.perFileCounter (Report.capped args items)).map Prod.fst
        = firstOcc id ((Report.capped args items).filterMap Report.fileKey)
    ∧ (∀ (f : String) (n : Nat),
        (f, n) ∈ Report.perFileCounter (Report.capped args items)
          ↔ f ∈ (Report.capped args items).filterMap Report.fileKey
            ∧ n = ((Report.capped args items).filterMap Report.fileKey).count f)
    ∧ (Report.most_common (Report.perFileCounter (Report.capped args items))).Pairwise
        (fun a b => b.2 ≤ a.2)
    ∧ (∀ n : Nat,
        (Report.most_common (Report.perFileCounter (Report.capped args items))).filter
            (fun p => p.2 == n)
          = (Report.perFileCounter (Report.capped args items)).filter
              (fun p => p.2 == n))
    ∧ ((Report.most_common (Report.perFileCounter (Report.capped args items))).all
        (fun p => !(p.1 == ""))) = true
    ∧ (Report.detailed_table args items).length
        = (Report.capped args items).length + 1 := by
  have hpf := Report.perFileCounter_eq (Report.capped args items)
  refine ⟨?_, ?_, Report.most_common_sorted _, fun n => Report.most_common_filter _ n,
    ?_, ?_⟩
  · rw [hpf]
    exact (Report.counterOf_invariant _).1
  · intro f n
    rw [hpf]
    exact Report.counterOf_mem_iff _ f n
  · rw [List.all_eq_true]
    intro p hp
    have hp' : p ∈ Report.perFileCounter (Report.capped args items) :=
      (Report.most_common_perm _).mem_iff.mp hp
    have hk : p.1 ∈ (Report.perFileCounter (Report.capped args items)).map Prod.fst :=
      List.mem_map_of_mem _ hp'
    rw [hpf, (Report.counterOf_invariant _).1, mem_firstOcc_id] at hk
    rcases List.mem_filterMap.mp hk with ⟨d, _, hfk⟩
    have := Report.fileKey_ne_empty d p.1 hfk
    simpa using this
  · simp [Report.detailed_table]
